import Mathlib

/-!
Shallow embedding of `src/translator/parser.py` from the `trailingout`
repository: the natural-language order parser (`OrderParser`), its data model
(`OrderInstruction`) and the payload builder (`as_payload`).

Strings are modelled as `List Char`; Python regex searches are modelled as
explicit leftmost-scan backtracking functions that follow the engine's
semantics for the three concrete patterns in the source.  Numeric values
(Python floats obtained from `float(...)` on short decimal literals) are
modelled as exact rationals, which agrees with the source on every literal
considered here.
-/

namespace Trailingout

/-- ASCII whitespace (space, tab, newline, carriage return, vertical tab,
form feed, by code point), modelling Python `str.strip` and the `\s` class on
the ASCII inputs considered here. -/
def isSpace (c : Char) : Bool :=
  c.toNat = 32 || c.toNat = 9 || c.toNat = 10 || c.toNat = 13 ||
  c.toNat = 11 || c.toNat = 12

/-- The class `[A-Z]` (code points 65–90). -/
def isUpperAZ (c : Char) : Bool := 65 ≤ c.toNat && c.toNat ≤ 90

/-- The class `[a-z]` (code points 97–122). -/
def isLowerAZ (c : Char) : Bool := 97 ≤ c.toNat && c.toNat ≤ 122

/-- The class `[0-9]` (code points 48–57). -/
def isDigit (c : Char) : Bool := 48 ≤ c.toNat && c.toNat ≤ 57

/-- The class `[a-zA-Z]` (ASCII letters). -/
def isLetter (c : Char) : Bool := isUpperAZ c || isLowerAZ c

/-- Python `str.lower`, character-wise, covering ASCII plus the accented
letters occurring in the parser's token sets (`À`, `È`, `É`, code points
192, 200, 201, mapping to 224, 232, 233). -/
def lowerChar (c : Char) : Char :=
  if isUpperAZ c then Char.ofNat (c.toNat + 32)
  else if c.toNat = 192 then 'à'
  else if c.toNat = 200 then 'è'
  else if c.toNat = 201 then 'é'
  else c

/-- Python `str.upper`, character-wise, covering ASCII plus the accented
letters occurring in the parser's token sets (`à`, `è`, `é`, code points
224, 232, 233, mapping to 192, 200, 201). -/
def upperChar (c : Char) : Char :=
  if isLowerAZ c then Char.ofNat (c.toNat - 32)
  else if c.toNat = 224 then 'À'
  else if c.toNat = 232 then 'È'
  else if c.toNat = 233 then 'É'
  else c

/-- Python `message.lower()`. -/
def pyLower (s : List Char) : List Char := s.map lowerChar

/-- Python `message.upper()`. -/
def pyUpper (s : List Char) : List Char := s.map upperChar

/-- Python `message.strip()`. -/
def pyStrip (s : List Char) : List Char :=
  ((s.dropWhile isSpace).reverse.dropWhile isSpace).reverse

/-- The typed error taxonomy of the parser (`OrderParserError` raise sites,
named as in the spec's error taxonomy). -/
inductive ParseError where
  | emptyInstruction
  | ambiguousSide
  | missingPair
  | missingQuantity
  | missingPrice
deriving DecidableEq

/-- `OrderParser.BUY_TOKENS`. -/
def BUY_TOKENS : List (List Char) :=
  ["buy".toList, "achète".toList, "achete".toList, "achat".toList]

/-- `OrderParser.SELL_TOKENS`. -/
def SELL_TOKENS : List (List Char) :=
  ["sell".toList, "vends".toList, "vendre".toList, "vend".toList,
   "revends".toList, "revendre".toList]

/-- `OrderParser.LIMIT_TOKENS`. -/
def LIMIT_TOKENS : List (List Char) := ["limit".toList, "limite".toList]

/-- `OrderParser.MARKET_TOKENS`. -/
def MARKET_TOKENS : List (List Char) :=
  ["market".toList, "marché".toList, "marche".toList]

/-- `t` is a prefix of `s` (decidable, character-wise). -/
def listPre : List Char → List Char → Bool
  | [], _ => true
  | _ :: _, [] => false
  | a :: t, b :: s => a = b && listPre t s

/-- `t` is a contiguous substring of `s`: Python's `t in s`. -/
def listSub : List Char → List Char → Bool
  | t, [] => t.isEmpty
  | t, s@(_ :: rest) => listPre t s || listSub t rest

/-- `any(token in message for token in toks)`: Python substring membership of
some token of the set.  (Python iterates the set in an unspecified order, but
the result of the loop `for token in toks: if token in message` depends only
on whether some token is a substring.) -/
def hasToken (msg : List Char) (toks : List (List Char)) : Bool :=
  toks.any (fun t => listSub t msg)

/-- `OrderParser._extract_side`: buy tokens are scanned before sell tokens. -/
def extractSide (msg : List Char) : Except ParseError String :=
  if hasToken msg BUY_TOKENS then .ok "buy"
  else if hasToken msg SELL_TOKENS then .ok "sell"
  else .error .ambiguousSide

/-- `OrderParser._extract_order_type`: limit tokens are scanned before market
tokens, and the default when neither matches is `"market"`. -/
def extractOrderType (msg : List Char) : String :=
  if hasToken msg LIMIT_TOKENS then "limit"
  else if hasToken msg MARKET_TOKENS then "market"
  else "market"

/-- Match exactly `n` characters of class `p`, returning the matched run and
the rest. -/
def takeClass (p : Char → Bool) : Nat → List Char → Option (List Char × List Char)
  | 0, s => some ([], s)
  | _ + 1, [] => none
  | n + 1, c :: s =>
    if p c then (takeClass p n s).map (fun g => (c :: g.1, g.2)) else none

/-- The second group `[A-Z]{3,5}` of `PAIR_PATTERN`, greedy (nothing follows
it, so the longest available length in 5,4,3 wins). -/
def pairGroup2 (s : List Char) : Option (List Char × List Char) :=
  takeClass isUpperAZ 5 s <|> takeClass isUpperAZ 4 s <|> takeClass isUpperAZ 3 s

/-- The quote group of a pair match starting at `s`, ignoring the rest. -/
def g2of (s : List Char) : Option (List Char) := (pairGroup2 s).map Prod.fst

/-- The separator-and-quote tail `(?:[/\-]|)([A-Z]{3,5})` of `PAIR_PATTERN`:
the alternation tries a literal `/` or `-` first, then the empty branch. -/
def pairTail : List Char → Option (List Char)
  | c :: rest =>
    if c = '/' || c = '-' then g2of rest <|> g2of (c :: rest) else g2of (c :: rest)
  | [] => none

/-- One attempt of `PAIR_PATTERN` at position `s` with the base group matching
exactly `n` characters. -/
def pairAttempt1 (n : Nat) (s : List Char) : Option (List Char × List Char) :=
  match takeClass isUpperAZ n s with
  | some (g1, r) => (pairTail r).map (fun g2 => (g1, g2))
  | none => none

/-- One anchored attempt of `PAIR_PATTERN = ([A-Z]{3,5})(?:[/\-]|)([A-Z]{3,5})`
at the start of `s`: the greedy base group tries lengths 5, 4, 3 in order,
backtracking into the tail. -/
def pairAttempt (s : List Char) : Option (List Char × List Char) :=
  pairAttempt1 5 s <|> pairAttempt1 4 s <|> pairAttempt1 3 s

/-- `re.search` with `PAIR_PATTERN`: leftmost match, scanning start positions
left to right. -/
def pairSearch : List Char → Option (List Char × List Char)
  | [] => none
  | c :: rest => pairAttempt (c :: rest) <|> pairSearch rest

/-- `OrderParser._extract_pair`: search the uppercased message and join the
two groups with `_`. -/
def extractPair (normalized : List Char) : Except ParseError String :=
  match pairSearch (pyUpper normalized) with
  | some (g1, g2) => .ok ⟨g1 ++ '_' :: g2⟩
  | none => .error .missingPair

/-- Maximal run of digits and the rest (`[0-9]+` greedy; nothing that can
follow it in the patterns below is a digit, so no backtracking arises). -/
def takeDigits : List Char → List Char × List Char
  | [] => ([], [])
  | c :: s =>
    if isDigit c then
      let p := takeDigits s
      (c :: p.1, p.2)
    else ([], c :: s)

/-- The numeric-literal group `([0-9]+(?:[.,][0-9]+)?)`: greedy integer part,
then an optional decimal separator with at least one digit.  Returns the
matched literal and the rest. -/
def matchNumber (s : List Char) : Option (List Char × List Char) :=
  match takeDigits s with
  | ([], _) => none
  | (d, r) =>
    match r with
    | c :: r2 =>
      if c = '.' || c = ',' then
        match takeDigits r2 with
        | ([], _) => some (d, r)
        | (d2, r3) => some (d ++ c :: d2, r3)
      else some (d, r)
    | [] => some (d, [])

/-- Value of a run of decimal digits. -/
def digitsVal (l : List Char) : Nat :=
  l.foldl (fun a c => a * 10 + (c.toNat - 48)) 0

/-- `float(literal.replace(",", "."))` on a literal matched by `matchNumber`,
as an exact rational: integer part plus fractional part. -/
def numVal (l : List Char) : ℚ :=
  let intPart := l.takeWhile isDigit
  let rest := l.dropWhile isDigit
  match rest with
  | _ :: frac => (digitsVal intPart : ℚ) + (digitsVal frac : ℚ) / ((10 : ℚ) ^ frac.length)
  | [] => (digitsVal intPart : ℚ)

/-- The `\s+` followed by a numeric literal, shared tail of `PRICE_PATTERN`:
at least one whitespace (greedy; digits are not whitespace), then the
number group. -/
def priceRest (s : List Char) : Option (List Char) :=
  match s.takeWhile isSpace with
  | [] => none
  | _ :: _ => (matchNumber (s.dropWhile isSpace)).map Prod.fst

/-- One anchored attempt of `PRICE_PATTERN = (?:at|à)\s+([0-9]+(?:[.,][0-9]+)?)`
(on the lower-cased message): the alternation tries `at` then `à`. -/
def priceAttempt (s : List Char) : Option (List Char) :=
  (if s.take 2 = ['a', 't'] then priceRest (s.drop 2) else none) <|>
  (if s.take 1 = ['à'] then priceRest (s.drop 1) else none)

/-- `re.search` with `PRICE_PATTERN`: leftmost match. -/
def priceSearch : List Char → Option (List Char)
  | [] => none
  | c :: rest => priceAttempt (c :: rest) <|> priceSearch rest

/-- `OrderParser._extract_price`: `None` when no match. -/
def extractPrice (msg : List Char) : Option ℚ :=
  (priceSearch msg).map numVal

/-- The class `[\s:]`. -/
def isSpaceColon (c : Char) : Bool := isSpace c || c = ':'

/-- The ordered branches of the action-token alternation
`(?:buy|sell|ach(?:è|e)te|achat|vend(?:re|s)?)` (on the lower-cased message;
the inner `(?:re|s)?` tries `re`, then `s`, then empty). -/
def ACTION_ALTS : List (List Char) :=
  ["buy".toList, "sell".toList, "achète".toList, "achete".toList,
   "achat".toList, "vendre".toList, "vends".toList, "vend".toList]

/-- The optional one-word filler `(?:[a-zA-Z]+\s+)?` followed by the number
group: letters (greedy; whitespace is not a letter), then `\s+` (greedy;
digits are not whitespace), then the numeric literal. -/
def qtyFiller (r : List Char) : Option (List Char) :=
  match r.takeWhile isLetter with
  | [] => none
  | _ :: _ =>
    let r2 := r.dropWhile isLetter
    match r2.takeWhile isSpace with
    | [] => none
    | _ :: _ => (matchNumber (r2.dropWhile isSpace)).map Prod.fst

/-- The tail of `QUANTITY_PATTERN` after the action token: `[\s:]+` (greedy;
letters and digits are not in the class), then the optional filler branch,
then the number group. -/
def qtyRest (s : List Char) : Option (List Char) :=
  match s.takeWhile isSpaceColon with
  | [] => none
  | _ :: _ =>
    let r := s.dropWhile isSpaceColon
    qtyFiller r <|> (matchNumber r).map Prod.fst

/-- One anchored attempt of `QUANTITY_PATTERN`: try each action-token branch
in alternation order, backtracking into the tail. -/
def qtyTryAlts : List (List Char) → List Char → Option (List Char)
  | [], _ => none
  | t :: ts, s =>
    (if listPre t s then qtyRest (s.drop t.length) else none) <|> qtyTryAlts ts s

/-- `re.search` with `QUANTITY_PATTERN`: leftmost match. -/
def qtySearch : List Char → Option (List Char)
  | [] => none
  | c :: rest => qtyTryAlts ACTION_ALTS (c :: rest) <|> qtySearch rest

/-- `OrderParser._extract_quantity`. -/
def extractQuantity (msg : List Char) : Except ParseError ℚ :=
  match qtySearch msg with
  | some num => .ok (numVal num)
  | none => .error .missingQuantity

/-- `OrderInstruction`: the structured order (the spec's `StructuredOrder`).
`order_type` is a string, as in the source; the parser only ever produces
`"market"` or `"limit"`. -/
structure OrderInstruction where
  side : String
  pair : String
  quantity : ℚ
  order_type : String
  price : Option ℚ := none
deriving DecidableEq

instance {ε α : Type} [DecidableEq ε] [DecidableEq α] : DecidableEq (Except ε α) := fun
  | .error e, .error f => decidable_of_iff (e = f) (by simp)
  | .error _, .ok _ => isFalse (by simp)
  | .ok _, .error _ => isFalse (by simp)
  | .ok a, .ok b => decidable_of_iff (a = b) (by simp)

/-- `OrderParser.parse`. -/
def parse (message : String) : Except ParseError OrderInstruction :=
  let normalized := pyStrip message.toList
  if normalized = [] then .error .emptyInstruction
  else
    let lower := pyLower normalized
    match extractSide lower with
    | .error e => .error e
    | .ok side =>
      let order_type := extractOrderType lower
      match extractPair normalized with
      | .error e => .error e
      | .ok pair =>
        match extractQuantity lower with
        | .error e => .error e
        | .ok quantity =>
          let price := if order_type = "limit" then extractPrice lower else none
          if order_type = "limit" ∧ price = none then .error .missingPrice
          else .ok ⟨side, pair, quantity, order_type, price⟩

/-- The nested `position` block of the payload.  `price = some v` means the
payload dictionary contains a `price` block whose `value` key holds `v`
(which is itself optional in the source's data model). -/
structure PositionPayload where
  type : String
  units_value : ℚ
  price : Option (Option ℚ)
deriving DecidableEq

/-- The payload built by `OrderInstruction.as_payload`. -/
structure Payload where
  account_id : Int
  pair : String
  position : PositionPayload
deriving DecidableEq

/-- `OrderInstruction.as_payload`. -/
def OrderInstruction.as_payload (o : OrderInstruction) (account_id : Int) : Payload :=
  { account_id := account_id
    pair := o.pair
    position :=
      { type := if o.order_type = "market" then "market" else "limit"
        units_value := o.quantity
        price := if o.order_type = "limit" then some o.price else none } }

section Lemmas

lemma extractSide_buy {l : List Char} (hb : hasToken l BUY_TOKENS = true) :
    extractSide l = .ok "buy" := by
  simp [extractSide, hb]

lemma extractSide_sell {l : List Char} (hb : hasToken l BUY_TOKENS = false)
    (hs : hasToken l SELL_TOKENS = true) : extractSide l = .ok "sell" := by
  simp [extractSide, hb, hs]

lemma extractSide_err {l : List Char} (hb : hasToken l BUY_TOKENS = false)
    (hs : hasToken l SELL_TOKENS = false) : extractSide l = .error .ambiguousSide := by
  simp [extractSide, hb, hs]

lemma extractSide_isOk {l : List Char}
    (h : (hasToken l BUY_TOKENS || hasToken l SELL_TOKENS) = true) :
    ∃ s, extractSide l = .ok s := by
  rcases Bool.or_eq_true_iff.mp h with hb | hs
  · exact ⟨"buy", extractSide_buy hb⟩
  · cases hb : hasToken l BUY_TOKENS
    · exact ⟨"sell", extractSide_sell hb hs⟩
    · exact ⟨"buy", extractSide_buy hb⟩

lemma extractPair_none {n : List Char} (h : pairSearch (pyUpper n) = none) :
    extractPair n = .error .missingPair := by
  simp [extractPair, h]

lemma extractPair_some {n : List Char} {g : List Char × List Char}
    (h : pairSearch (pyUpper n) = some g) :
    extractPair n = .ok ⟨g.1 ++ '_' :: g.2⟩ := by
  simp [extractPair, h]

lemma extractQuantity_none {l : List Char} (h : qtySearch l = none) :
    extractQuantity l = .error .missingQuantity := by
  simp [extractQuantity, h]

lemma extractQuantity_some {l num : List Char} (h : qtySearch l = some num) :
    extractQuantity l = .ok (numVal num) := by
  simp [extractQuantity, h]

lemma extractQuantity_ok_inv {l : List Char} {q : ℚ}
    (h : extractQuantity l = .ok q) : ∃ num, qtySearch l = some num ∧ q = numVal num := by
  unfold extractQuantity at h
  cases hq : qtySearch l with
  | none => rw [hq] at h; exact absurd h (by simp)
  | some num => rw [hq] at h; simp at h; exact ⟨num, rfl, h.symm⟩

lemma extractPrice_eq_some_inv {l : List Char} {p : ℚ}
    (h : extractPrice l = some p) : ∃ num, priceSearch l = some num ∧ p = numVal num := by
  unfold extractPrice at h
  cases hp : priceSearch l with
  | none => rw [hp] at h; exact absurd h (by simp)
  | some num => rw [hp] at h; simp at h; exact ⟨num, rfl, h.symm⟩

/-- Inversion of a successful parse: each field of the result is the output of
the corresponding extraction on the stripped (and lower-cased, as
appropriate) message, and a limit order carries a price. -/
lemma parse_ok_inv {m : String} {o : OrderInstruction} (h : parse m = .ok o) :
    pyStrip m.data ≠ []
    ∧ extractSide (pyLower (pyStrip m.data)) = .ok o.side
    ∧ o.order_type = extractOrderType (pyLower (pyStrip m.data))
    ∧ extractPair (pyStrip m.data) = .ok o.pair
    ∧ extractQuantity (pyLower (pyStrip m.data)) = .ok o.quantity
    ∧ o.price = (if o.order_type = "limit"
        then extractPrice (pyLower (pyStrip m.data)) else none)
    ∧ (o.order_type = "limit" → o.price ≠ none) := by
  simp only [parse, String.toList] at h
  split at h
  · exact absurd h (by simp)
  next hne =>
    split at h
    · exact absurd h (by simp)
    next side hside =>
      split at h
      · exact absurd h (by simp)
      next pair hpair =>
        split at h
        · exact absurd h (by simp)
        next q hq =>
          by_cases hc : extractOrderType (pyLower (pyStrip m.data)) = "limit"
            ∧ (if extractOrderType (pyLower (pyStrip m.data)) = "limit"
                then extractPrice (pyLower (pyStrip m.data)) else none) = none
          · rw [if_pos hc] at h
            exact absurd h (by simp)
          · rw [if_neg hc] at h
            simp only [Except.ok.injEq] at h
            subst h
            refine ⟨hne, hside, rfl, hpair, hq, rfl, ?_⟩
            intro hl hnone
            exact hc ⟨hl, hnone⟩

lemma extractSide_error_inv {l : List Char} {e : ParseError}
    (h : extractSide l = .error e) :
    e = .ambiguousSide ∧ hasToken l BUY_TOKENS = false ∧ hasToken l SELL_TOKENS = false := by
  by_cases hb : hasToken l BUY_TOKENS = true
  · rw [extractSide_buy hb] at h; exact absurd h (by simp)
  · replace hb : hasToken l BUY_TOKENS = false := by simpa using hb
    by_cases hs : hasToken l SELL_TOKENS = true
    · rw [extractSide_sell hb hs] at h; exact absurd h (by simp)
    · replace hs : hasToken l SELL_TOKENS = false := by simpa using hs
      rw [extractSide_err hb hs] at h
      simp at h
      exact ⟨h.symm, hb, hs⟩

lemma extractPair_error_inv {n : List Char} {e : ParseError}
    (h : extractPair n = .error e) :
    e = .missingPair ∧ pairSearch (pyUpper n) = none := by
  cases hp : pairSearch (pyUpper n) with
  | none => rw [extractPair_none hp] at h; simp at h; exact ⟨h.symm, rfl⟩
  | some g => rw [extractPair_some hp] at h; exact absurd h (by simp)

lemma extractQuantity_error_inv {l : List Char} {e : ParseError}
    (h : extractQuantity l = .error e) :
    e = .missingQuantity ∧ qtySearch l = none := by
  cases hq : qtySearch l with
  | none => rw [extractQuantity_none hq] at h; simp at h; exact ⟨h.symm, rfl⟩
  | some num => rw [extractQuantity_some hq] at h; exact absurd h (by simp)

lemma parse_empty {m : String} (h : pyStrip m.data = []) :
    parse m = .error .emptyInstruction := by
  simp [parse, h]

lemma parse_err_side {m : String} (hne : pyStrip m.data ≠ [])
    (hb : hasToken (pyLower (pyStrip m.data)) BUY_TOKENS = false)
    (hs : hasToken (pyLower (pyStrip m.data)) SELL_TOKENS = false) :
    parse m = .error .ambiguousSide := by
  simp [parse, hne, extractSide_err hb hs]

lemma parse_err_pair {m : String} {s : String} (hne : pyStrip m.data ≠ [])
    (hside : extractSide (pyLower (pyStrip m.data)) = .ok s)
    (hp : pairSearch (pyUpper (pyStrip m.data)) = none) :
    parse m = .error .missingPair := by
  simp [parse, hne, hside, extractPair_none hp]

lemma parse_err_qty {m : String} {s : String} {g : List Char × List Char}
    (hne : pyStrip m.data ≠ [])
    (hside : extractSide (pyLower (pyStrip m.data)) = .ok s)
    (hp : pairSearch (pyUpper (pyStrip m.data)) = some g)
    (hq : qtySearch (pyLower (pyStrip m.data)) = none) :
    parse m = .error .missingQuantity := by
  simp [parse, hne, hside, extractPair_some hp, extractQuantity_none hq]

lemma parse_err_price {m : String} {s : String} {g : List Char × List Char}
    {num : List Char} (hne : pyStrip m.data ≠ [])
    (hside : extractSide (pyLower (pyStrip m.data)) = .ok s)
    (hp : pairSearch (pyUpper (pyStrip m.data)) = some g)
    (hq : qtySearch (pyLower (pyStrip m.data)) = some num)
    (hlim : extractOrderType (pyLower (pyStrip m.data)) = "limit")
    (hpr : priceSearch (pyLower (pyStrip m.data)) = none) :
    parse m = .error .missingPrice := by
  have hnone : extractPrice (pyLower (pyStrip m.data)) = none := by
    simp [extractPrice, hpr]
  simp [parse, hne, hside, extractPair_some hp, extractQuantity_some hq, hlim, hnone]

lemma parse_ok_exists {m : String} {s : String} {g : List Char × List Char}
    {num : List Char} (hne : pyStrip m.data ≠ [])
    (hside : extractSide (pyLower (pyStrip m.data)) = .ok s)
    (hp : pairSearch (pyUpper (pyStrip m.data)) = some g)
    (hq : qtySearch (pyLower (pyStrip m.data)) = some num)
    (hpr : extractOrderType (pyLower (pyStrip m.data)) = "limit" →
      priceSearch (pyLower (pyStrip m.data)) ≠ none) :
    ∃ o, parse m = .ok o := by
  by_cases hlim : extractOrderType (pyLower (pyStrip m.data)) = "limit"
  · obtain ⟨pnum, hpn⟩ := Option.ne_none_iff_exists'.mp (hpr hlim)
    have hsome : extractPrice (pyLower (pyStrip m.data)) = some (numVal pnum) := by
      simp [extractPrice, hpn]
    refine ⟨⟨s, ⟨g.1 ++ '_' :: g.2⟩, numVal num,
      extractOrderType (pyLower (pyStrip m.data)), some (numVal pnum)⟩, ?_⟩
    simp [parse, hne, hside, extractPair_some hp, extractQuantity_some hq, hlim, hsome]
  · refine ⟨⟨s, ⟨g.1 ++ '_' :: g.2⟩, numVal num,
      extractOrderType (pyLower (pyStrip m.data)), none⟩, ?_⟩
    simp [parse, hne, hside, extractPair_some hp, extractQuantity_some hq, hlim]

lemma parse_missingPair_inv {m : String} (h : parse m = .error .missingPair) :
    pairSearch (pyUpper (pyStrip m.data)) = none := by
  simp only [parse, String.toList] at h
  split at h
  · exact absurd h (by simp)
  next hne =>
    split at h
    next e hside =>
      obtain ⟨he, _, _⟩ := extractSide_error_inv hside
      subst he
      exact absurd h (by simp)
    next side hside =>
      split at h
      next e hpair =>
        obtain ⟨_, hps⟩ := extractPair_error_inv hpair
        exact hps
      next pair hpair =>
        split at h
        next e hqty =>
          obtain ⟨he, _⟩ := extractQuantity_error_inv hqty
          subst he
          exact absurd h (by simp)
        next q hq =>
          by_cases hc : extractOrderType (pyLower (pyStrip m.data)) = "limit"
            ∧ (if extractOrderType (pyLower (pyStrip m.data)) = "limit"
                then extractPrice (pyLower (pyStrip m.data)) else none) = none
          · rw [if_pos hc] at h
            exact absurd h (by simp)
          · rw [if_neg hc] at h
            exact absurd h (by simp)

lemma orElse_eq_some {α : Type} {a b : Option α} {x : α} (h : (a <|> b) = some x) :
    a = some x ∨ (a = none ∧ b = some x) := by
  cases a <;> simp_all

lemma takeClass_spec {p : Char → Bool} {n : Nat} {s g r : List Char}
    (h : takeClass p n s = some (g, r)) :
    g.length = n ∧ g.all p = true ∧ s = g ++ r := by
  induction n generalizing s g r with
  | zero =>
    unfold takeClass at h
    simp only [Option.some.injEq, Prod.mk.injEq] at h
    obtain ⟨hg, hs⟩ := h
    subst hg
    subst hs
    simp
  | succ n ih =>
    cases s with
    | nil => simp [takeClass] at h
    | cons c cs =>
      unfold takeClass at h
      by_cases hp : p c
      · rw [if_pos hp] at h
        cases ht : takeClass p n cs with
        | none => rw [ht] at h; simp at h
        | some gr =>
          rw [ht] at h
          simp only [Option.map_some', Option.some.injEq] at h
          obtain ⟨g', r'⟩ := gr
          obtain ⟨h1, h2⟩ := Prod.mk.injEq .. ▸ h
          obtain ⟨hl, ha, hs⟩ := ih ht
          subst h1
          subst h2
          simp only [List.length_cons, List.all_cons, hp, Bool.true_and, List.cons_append]
          exact ⟨by omega, ha, by rw [hs]⟩
      · rw [if_neg hp] at h
        simp at h

lemma pairGroup2_spec {s g r : List Char} (h : pairGroup2 s = some (g, r)) :
    3 ≤ g.length ∧ g.length ≤ 5 ∧ g.all isUpperAZ = true := by
  unfold pairGroup2 at h
  rcases orElse_eq_some h with h5 | ⟨_, h43⟩
  · obtain ⟨hl, ha, _⟩ := takeClass_spec h5
    exact ⟨by omega, by omega, ha⟩
  · rcases orElse_eq_some h43 with h4 | ⟨_, h3⟩
    · obtain ⟨hl, ha, _⟩ := takeClass_spec h4
      exact ⟨by omega, by omega, ha⟩
    · obtain ⟨hl, ha, _⟩ := takeClass_spec h3
      exact ⟨by omega, by omega, ha⟩

lemma g2of_spec {s q : List Char} (h : g2of s = some q) :
    3 ≤ q.length ∧ q.length ≤ 5 ∧ q.all isUpperAZ = true := by
  unfold g2of at h
  obtain ⟨⟨g, r⟩, hp, he⟩ := Option.map_eq_some'.mp h
  obtain ⟨h1, h2, h3⟩ := pairGroup2_spec hp
  simp only at he
  subst he
  exact ⟨h1, h2, h3⟩

lemma pairTail_spec {s q : List Char} (h : pairTail s = some q) :
    3 ≤ q.length ∧ q.length ≤ 5 ∧ q.all isUpperAZ = true := by
  cases s with
  | nil => simp [pairTail] at h
  | cons c rest =>
    simp only [pairTail] at h
    by_cases hc : (c = '/' || c = '-') = true
    · rw [if_pos hc] at h
      rcases orElse_eq_some h with h1 | ⟨_, h2⟩
      · exact g2of_spec h1
      · exact g2of_spec h2
    · rw [if_neg hc] at h
      exact g2of_spec h

lemma pairAttempt1_spec {n : Nat} {s b q : List Char}
    (h : pairAttempt1 n s = some (b, q)) :
    b.length = n ∧ b.all isUpperAZ = true
    ∧ 3 ≤ q.length ∧ q.length ≤ 5 ∧ q.all isUpperAZ = true := by
  unfold pairAttempt1 at h
  cases ht : takeClass isUpperAZ n s with
  | none => rw [ht] at h; simp at h
  | some gr =>
    obtain ⟨g1, r⟩ := gr
    rw [ht] at h
    simp only at h
    obtain ⟨g2, hg2, he⟩ := Option.map_eq_some'.mp h
    obtain ⟨h1, h2⟩ := Prod.mk.injEq .. ▸ he
    subst h1
    subst h2
    obtain ⟨hl, ha, _⟩ := takeClass_spec ht
    obtain ⟨q1, q2, q3⟩ := pairTail_spec hg2
    exact ⟨hl, ha, q1, q2, q3⟩

lemma pairAttempt_spec {s b q : List Char} (h : pairAttempt s = some (b, q)) :
    3 ≤ b.length ∧ b.length ≤ 5 ∧ b.all isUpperAZ = true
    ∧ 3 ≤ q.length ∧ q.length ≤ 5 ∧ q.all isUpperAZ = true := by
  unfold pairAttempt at h
  rcases orElse_eq_some h with h5 | ⟨_, h43⟩
  · obtain ⟨hl, ha, hq⟩ := pairAttempt1_spec h5
    exact ⟨by omega, by omega, ha, hq⟩
  · rcases orElse_eq_some h43 with h4 | ⟨_, h3⟩
    · obtain ⟨hl, ha, hq⟩ := pairAttempt1_spec h4
      exact ⟨by omega, by omega, ha, hq⟩
    · obtain ⟨hl, ha, hq⟩ := pairAttempt1_spec h3
      exact ⟨by omega, by omega, ha, hq⟩

lemma pairSearch_leftmost {s : List Char} {x : List Char × List Char}
    (h : pairSearch s = some x) :
    ∃ i, pairAttempt (s.drop i) = some x
      ∧ ∀ j, j < i → pairAttempt (s.drop j) = none := by
  induction s with
  | nil => simp [pairSearch] at h
  | cons c rest ih =>
    unfold pairSearch at h
    rcases orElse_eq_some h with h0 | ⟨hn, hr⟩
    · exact ⟨0, by simpa using h0, fun j hj => absurd hj (Nat.not_lt_zero j)⟩
    · obtain ⟨i, hi, hj⟩ := ih hr
      refine ⟨i + 1, by simpa using hi, ?_⟩
      intro j hjlt
      cases j with
      | zero => simpa using hn
      | succ j' => simpa using hj j' (by omega)

lemma charToNat_ofNat {n : Nat} (h : n < 55296) : (Char.ofNat n).toNat = n := by
  have hv : n.isValidChar := Or.inl h
  simp [Char.ofNat, hv, Char.ofNatAux, Char.toNat]
  rfl

lemma not_isSpace_of_isLetter {c : Char} (h : isLetter c = true) :
    isSpace c = false := by
  simp only [isLetter, isUpperAZ, isLowerAZ, Bool.or_eq_true, Bool.and_eq_true,
    decide_eq_true_eq] at h
  simp only [isSpace, Bool.or_eq_false_iff, decide_eq_false_iff_not]
  omega

lemma isUpperAZ_upperChar {c : Char} (h : isLetter c = true) :
    isUpperAZ (upperChar c) = true := by
  simp only [isLetter, Bool.or_eq_true] at h
  rcases h with hu | hl
  · have hb : 65 ≤ c.toNat ∧ c.toNat ≤ 90 := by simpa [isUpperAZ] using hu
    have hlow : ¬ isLowerAZ c = true := by
      simp only [isLowerAZ, Bool.and_eq_true, decide_eq_true_eq, not_and, not_le]
      omega
    unfold upperChar
    rw [if_neg hlow, if_neg (by omega : ¬c.toNat = 224),
      if_neg (by omega : ¬c.toNat = 232), if_neg (by omega : ¬c.toNat = 233)]
    exact hu
  · have hb : 97 ≤ c.toNat ∧ c.toNat ≤ 122 := by simpa [isLowerAZ] using hl
    unfold upperChar
    rw [if_pos hl]
    have hv : (Char.ofNat (c.toNat - 32)).toNat = c.toNat - 32 :=
      charToNat_ofNat (by omega)
    simp only [isUpperAZ, hv, Bool.and_eq_true, decide_eq_true_eq]
    omega

lemma not_sep_of_upper {c : Char} (h : isUpperAZ c = true) :
    (c = '/' || c = '-') = false := by
  have hb : 65 ≤ c.toNat ∧ c.toNat ≤ 90 := by simpa [isUpperAZ] using h
  simp only [Bool.or_eq_false_iff, decide_eq_false_iff_not]
  constructor <;> rintro rfl <;> exact absurd hb (by decide)

lemma dropWhile_append3 {p : Char → Bool} {c0 : Char} (hc : p c0 = false)
    (a t : List Char) :
    (a ++ c0 :: t).dropWhile p = a.dropWhile p ++ c0 :: t := by
  induction a with
  | nil => simp [List.dropWhile_cons, hc]
  | cons u a' ih =>
    cases hu : p u
    · simp [List.dropWhile_cons, hu]
    · simp [List.dropWhile_cons, hu, ih]

/-- Stripping whitespace preserves any contiguous whitespace-free run as a
contiguous run. -/
lemma pyStrip_infix {l a r b : List Char} (hl : l = a ++ r ++ b) (hr : r ≠ [])
    (hns : ∀ c ∈ r, isSpace c = false) :
    ∃ a' b', pyStrip l = a' ++ r ++ b' := by
  obtain ⟨c0, t, rfl⟩ := List.exists_cons_of_ne_nil hr
  have hc0 : isSpace c0 = false := hns c0 (by simp)
  have h1 : l.dropWhile isSpace = a.dropWhile isSpace ++ (c0 :: t) ++ b := by
    subst hl
    have e : a ++ (c0 :: t) ++ b = a ++ c0 :: (t ++ b) := by simp
    rw [e, dropWhile_append3 hc0 a (t ++ b)]
    simp
  obtain ⟨cL, t2, hL⟩ :=
    List.exists_cons_of_ne_nil (show (c0 :: t).reverse ≠ [] by simp)
  have hcL : isSpace cL = false := by
    have hmem : cL ∈ (c0 :: t).reverse := by rw [hL]; simp
    exact hns cL (List.mem_reverse.mp hmem)
  have hct : t2.reverse ++ [cL] = c0 :: t := by
    have h' := congrArg List.reverse hL
    simpa using h'.symm
  have h2 : (l.dropWhile isSpace).reverse
      = b.reverse ++ cL :: (t2 ++ (a.dropWhile isSpace).reverse) := by
    rw [h1]
    have e1 : (a.dropWhile isSpace ++ (c0 :: t) ++ b).reverse
        = b.reverse ++ ((c0 :: t).reverse ++ (a.dropWhile isSpace).reverse) := by
      simp [List.reverse_append]
    rw [e1, hL]
    simp
  have h3 : ((l.dropWhile isSpace).reverse).dropWhile isSpace
      = b.reverse.dropWhile isSpace ++ cL :: (t2 ++ (a.dropWhile isSpace).reverse) := by
    rw [h2]
    exact dropWhile_append3 hcL b.reverse _
  refine ⟨a.dropWhile isSpace, (b.reverse.dropWhile isSpace).reverse, ?_⟩
  unfold pyStrip
  rw [h3, ← hct]
  simp [List.reverse_append, List.append_assoc]

lemma orElse_isSome {α : Type} (a b : Option α) :
    (a <|> b).isSome = (a.isSome || b.isSome) := by
  cases a <;> simp

lemma takeClass_take {p : Char → Bool} {n : Nat} {s : List Char}
    (hn : n ≤ s.length) (h : (s.take n).all p = true) :
    takeClass p n s = some (s.take n, s.drop n) := by
  induction n generalizing s with
  | zero => simp [takeClass]
  | succ n ih =>
    cases s with
    | nil => simp at hn
    | cons c cs =>
      have h' : p c = true ∧ (cs.take n).all p = true := by simpa using h
      unfold takeClass
      rw [if_pos h'.1, ih (by simpa using hn) h'.2]
      simp

lemma pairAttempt_isSome_of_six {s : List Char} (hlen : 6 ≤ s.length)
    (hall : (s.take 6).all isUpperAZ = true) :
    (pairAttempt s).isSome = true := by
  cases s with
  | nil => simp at hlen
  | cons c1 s1 =>
  cases s1 with
  | nil => simp at hlen
  | cons c2 s2 =>
  cases s2 with
  | nil => simp at hlen
  | cons c3 s3 =>
  cases s3 with
  | nil => simp at hlen
  | cons c4 s4 =>
  cases s4 with
  | nil => simp at hlen
  | cons c5 s5 =>
  cases s5 with
  | nil => simp at hlen
  | cons c6 rest =>
  have hall' : isUpperAZ c1 = true ∧ isUpperAZ c2 = true ∧ isUpperAZ c3 = true
      ∧ isUpperAZ c4 = true ∧ isUpperAZ c5 = true ∧ isUpperAZ c6 = true := by
    simpa using hall
  obtain ⟨h1, h2, h3, h4, h5, h6⟩ := hall'
  have ht3 : takeClass isUpperAZ 3 (c1 :: c2 :: c3 :: c4 :: c5 :: c6 :: rest)
      = some ([c1, c2, c3], c4 :: c5 :: c6 :: rest) := by
    simp [takeClass, h1, h2, h3]
  have hg3 : takeClass isUpperAZ 3 (c4 :: c5 :: c6 :: rest) = some ([c4, c5, c6], rest) := by
    simp [takeClass, h4, h5, h6]
  have hpg : (pairGroup2 (c4 :: c5 :: c6 :: rest)).isSome = true := by
    unfold pairGroup2
    rw [orElse_isSome, orElse_isSome, hg3]
    simp
  have hg2 : (g2of (c4 :: c5 :: c6 :: rest)).isSome = true := by
    unfold g2of
    cases ho : pairGroup2 (c4 :: c5 :: c6 :: rest) with
    | none => rw [ho] at hpg; simp at hpg
    | some g => simp
  have htail : (pairTail (c4 :: c5 :: c6 :: rest)).isSome = true := by
    simp only [pairTail]
    rw [if_neg (by simp [not_sep_of_upper h4])]
    exact hg2
  have ha3 : (pairAttempt1 3 (c1 :: c2 :: c3 :: c4 :: c5 :: c6 :: rest)).isSome = true := by
    unfold pairAttempt1
    rw [ht3]
    simpa using htail
  unfold pairAttempt
  rw [orElse_isSome, orElse_isSome, ha3]
  simp

lemma pairSearch_some_of_attempt {s : List Char} (i : Nat)
    (h : (pairAttempt (s.drop i)).isSome = true) :
    ∃ x, pairSearch s = some x := by
  induction s generalizing i with
  | nil =>
    rw [List.drop_nil] at h
    have he : pairAttempt ([] : List Char) = none := rfl
    rw [he] at h
    simp at h
  | cons c rest ih =>
    cases i with
    | zero =>
      rw [List.drop_zero] at h
      obtain ⟨x, hx⟩ := Option.isSome_iff_exists.mp h
      exact ⟨x, by simp [pairSearch, hx]⟩
    | succ i' =>
      have h' : (pairAttempt (rest.drop i')).isSome = true := by simpa using h
      obtain ⟨x, hx⟩ := ih i' h'
      cases ha : pairAttempt (c :: rest) with
      | some y => exact ⟨y, by simp [pairSearch, ha]⟩
      | none => exact ⟨x, by simp [pairSearch, ha, hx]⟩

lemma numVal_nonneg (l : List Char) : 0 ≤ numVal l := by
  unfold numVal
  cases h : l.dropWhile isDigit with
  | nil => simp
  | cons c frac =>
    have h1 : (0 : ℚ) ≤ (digitsVal (l.takeWhile isDigit) : ℚ) := by positivity
    have h2 : (0 : ℚ) ≤ (digitsVal frac : ℚ) / (10 : ℚ) ^ frac.length := by positivity
    simpa using add_nonneg h1 h2

end Lemmas

/-- C1: for every input message, `parse` either returns a fully valid
`OrderInstruction` or fails with exactly one typed error, checked fail-fast
in this order: an empty or whitespace-only message fails with
`emptyInstruction`; otherwise if no buy or sell token is found it fails with
`ambiguousSide`; otherwise if no pair is found it fails with `missingPair`;
otherwise if no quantity is found it fails with `missingQuantity`; otherwise
if the order type is limit and no price is found it fails with
`missingPrice`; and when every needed extraction succeeds, `parse` returns a
structured order (no partial result state exists). -/
theorem C1_fail_fast_error_order (m : String) :
    (pyStrip m.data = [] → parse m = .error .emptyInstruction)
    ∧ (pyStrip m.data ≠ [] →
        hasToken (pyLower (pyStrip m.data)) BUY_TOKENS = false →
        hasToken (pyLower (pyStrip m.data)) SELL_TOKENS = false →
        parse m = .error .ambiguousSide)
    ∧ (pyStrip m.data ≠ [] →
        (hasToken (pyLower (pyStrip m.data)) BUY_TOKENS
          || hasToken (pyLower (pyStrip m.data)) SELL_TOKENS) = true →
        pairSearch (pyUpper (pyStrip m.data)) = none →
        parse m = .error .missingPair)
    ∧ (pyStrip m.data ≠ [] →
        (hasToken (pyLower (pyStrip m.data)) BUY_TOKENS
          || hasToken (pyLower (pyStrip m.data)) SELL_TOKENS) = true →
        pairSearch (pyUpper (pyStrip m.data)) ≠ none →
        qtySearch (pyLower (pyStrip m.data)) = none →
        parse m = .error .missingQuantity)
    ∧ (pyStrip m.data ≠ [] →
        (hasToken (pyLower (pyStrip m.data)) BUY_TOKENS
          || hasToken (pyLower (pyStrip m.data)) SELL_TOKENS) = true →
        pairSearch (pyUpper (pyStrip m.data)) ≠ none →
        qtySearch (pyLower (pyStrip m.data)) ≠ none →
        extractOrderType (pyLower (pyStrip m.data)) = "limit" →
        priceSearch (pyLower (pyStrip m.data)) = none →
        parse m = .error .missingPrice)
    ∧ (pyStrip m.data ≠ [] →
        (hasToken (pyLower (pyStrip m.data)) BUY_TOKENS
          || hasToken (pyLower (pyStrip m.data)) SELL_TOKENS) = true →
        pairSearch (pyUpper (pyStrip m.data)) ≠ none →
        qtySearch (pyLower (pyStrip m.data)) ≠ none →
        (extractOrderType (pyLower (pyStrip m.data)) = "limit" →
          priceSearch (pyLower (pyStrip m.data)) ≠ none) →
        ∃ o, parse m = .ok o) := by
  refine ⟨fun h => parse_empty h, fun hne hb hs => parse_err_side hne hb hs,
    ?_, ?_, ?_, ?_⟩
  · intro hne hbs hp
    obtain ⟨s, hside⟩ := extractSide_isOk hbs
    exact parse_err_pair hne hside hp
  · intro hne hbs hp hq
    obtain ⟨s, hside⟩ := extractSide_isOk hbs
    obtain ⟨g, hg⟩ := Option.ne_none_iff_exists'.mp hp
    exact parse_err_qty hne hside hg hq
  · intro hne hbs hp hq hlim hpr
    obtain ⟨s, hside⟩ := extractSide_isOk hbs
    obtain ⟨g, hg⟩ := Option.ne_none_iff_exists'.mp hp
    obtain ⟨num, hnum⟩ := Option.ne_none_iff_exists'.mp hq
    exact parse_err_price hne hside hg hnum hlim hpr
  · intro hne hbs hp hq hpr
    obtain ⟨s, hside⟩ := extractSide_isOk hbs
    obtain ⟨g, hg⟩ := Option.ne_none_iff_exists'.mp hp
    obtain ⟨num, hnum⟩ := Option.ne_none_iff_exists'.mp hq
    exact parse_ok_exists hne hside hg hnum hpr

theorem C1_fail_fast_error_order_witness :
    parse "" = .error .emptyInstruction
    ∧ parse "hello BTCUSDT 5" = .error .ambiguousSide
    ∧ parse "buy one two three" = .error .missingPair
    ∧ parse "buy BTCUSDT" = .error .missingQuantity
    ∧ parse "sell 2 BTC/USDT limit" = .error .missingPrice
    ∧ ∃ o, parse "buy 2 BTC/USDT" = .ok o := by
  refine ⟨(C1_fail_fast_error_order "").1 (by decide),
    (C1_fail_fast_error_order "hello BTCUSDT 5").2.1 (by decide) (by decide) (by decide),
    (C1_fail_fast_error_order "buy one two three").2.2.1 (by decide) (by decide) (by decide),
    (C1_fail_fast_error_order "buy BTCUSDT").2.2.2.1
      (by decide) (by decide) (by decide) (by decide),
    (C1_fail_fast_error_order "sell 2 BTC/USDT limit").2.2.2.2.1
      (by decide) (by decide) (by decide) (by decide) (by decide) (by decide),
    (C1_fail_fast_error_order "buy 2 BTC/USDT").2.2.2.2.2
      (by decide) (by decide) (by decide) (by decide) (by decide)⟩

/-- C2: for every non-empty message, if any buy token occurs as a substring
of the lower-cased message then the side resolves to buy (even when a sell
token also occurs); otherwise, if any sell token occurs, the side resolves to
sell; otherwise `parse` fails with `ambiguousSide`. -/
theorem C2_buy_before_sell (m : String) (hne : pyStrip m.data ≠ []) :
    (hasToken (pyLower (pyStrip m.data)) BUY_TOKENS = true →
      extractSide (pyLower (pyStrip m.data)) = .ok "buy"
      ∧ ∀ o, parse m = .ok o → o.side = "buy")
    ∧ (hasToken (pyLower (pyStrip m.data)) BUY_TOKENS = false →
       hasToken (pyLower (pyStrip m.data)) SELL_TOKENS = true →
        extractSide (pyLower (pyStrip m.data)) = .ok "sell"
        ∧ ∀ o, parse m = .ok o → o.side = "sell")
    ∧ (hasToken (pyLower (pyStrip m.data)) BUY_TOKENS = false →
       hasToken (pyLower (pyStrip m.data)) SELL_TOKENS = false →
        parse m = .error .ambiguousSide) := by
  refine ⟨fun hb => ⟨extractSide_buy hb, fun o ho => ?_⟩,
    fun hb hs => ⟨extractSide_sell hb hs, fun o ho => ?_⟩,
    fun hb hs => parse_err_side hne hb hs⟩
  · have hside := (parse_ok_inv ho).2.1
    rw [extractSide_buy hb] at hside
    exact (Except.ok.inj hside).symm
  · have hside := (parse_ok_inv ho).2.1
    rw [extractSide_sell hb hs] at hside
    exact (Except.ok.inj hside).symm

theorem C2_buy_before_sell_witness :
    extractSide (pyLower (pyStrip ("sell buy 2 BTCUSDT").data)) = .ok "buy"
    ∧ extractSide (pyLower (pyStrip ("vends 2 BTCUSDT").data)) = .ok "sell" :=
  ⟨((C2_buy_before_sell "sell buy 2 BTCUSDT" (by decide)).1 (by decide)).1,
   ((C2_buy_before_sell "vends 2 BTCUSDT" (by decide)).2.1 (by decide) (by decide)).1⟩

/-- C5: order-type resolution checks limit tokens before market tokens and
defaults to market when neither matches (never an error); consequently, for
every message with no order-type token, a successfully parsed order has
order type `"market"` and no price. -/
theorem C5_order_type_default (m : String) :
    (hasToken (pyLower (pyStrip m.data)) LIMIT_TOKENS = true →
      extractOrderType (pyLower (pyStrip m.data)) = "limit")
    ∧ (hasToken (pyLower (pyStrip m.data)) LIMIT_TOKENS = false →
       hasToken (pyLower (pyStrip m.data)) MARKET_TOKENS = true →
        extractOrderType (pyLower (pyStrip m.data)) = "market")
    ∧ (hasToken (pyLower (pyStrip m.data)) LIMIT_TOKENS = false →
       hasToken (pyLower (pyStrip m.data)) MARKET_TOKENS = false →
        extractOrderType (pyLower (pyStrip m.data)) = "market"
        ∧ ∀ o, parse m = .ok o → o.order_type = "market" ∧ o.price = none) := by
  refine ⟨fun hl => by simp [extractOrderType, hl],
    fun hl hm => by simp [extractOrderType, hl, hm],
    fun hl hm => ⟨by simp [extractOrderType, hl, hm], fun o ho => ?_⟩⟩
  have hinv := parse_ok_inv ho
  have hot : o.order_type = "market" := by
    rw [hinv.2.2.1]
    simp [extractOrderType, hl, hm]
  refine ⟨hot, ?_⟩
  have hp := hinv.2.2.2.2.2.1
  rw [hot] at hp
  simpa using hp

theorem C5_order_type_default_witness :
    extractOrderType (pyLower (pyStrip ("buy 5 BTCUSDT").data)) = "market"
    ∧ ∀ o, parse "buy 5 BTCUSDT" = .ok o → o.order_type = "market" ∧ o.price = none :=
  (C5_order_type_default "buy 5 BTCUSDT").2.2 (by decide) (by decide)

/-- C3 (counterexample): the parser accepts a quantity of `0`, so the claimed
invariant `quantity > 0` fails: `parse "buy 0 BTCUSDT"` succeeds with
quantity `0`, and `0 > 0` is false. -/
theorem C3_counterexample :
    parse "buy 0 BTCUSDT" = .ok ⟨"buy", "BTCU_SDT", 0, "market", none⟩
    ∧ ¬(0 < (0 : ℚ)) :=
  ⟨by decide, lt_irrefl 0⟩

/-- C3 (amended): every `OrderInstruction` returned by `parse` satisfies
`quantity ≥ 0` (the numeric pattern matches `0`, which the parser accepts
unchecked); if the order type is limit then a price is present and `≥ 0`; and
if the order type is market then the price is absent, even when the message
text contains a price phrase. -/
theorem C3_invariants_amended (m : String) (o : OrderInstruction)
    (h : parse m = .ok o) :
    0 ≤ o.quantity
    ∧ (o.order_type = "limit" → ∃ p, o.price = some p ∧ 0 ≤ p)
    ∧ (o.order_type = "market" → o.price = none) := by
  have hinv := parse_ok_inv h
  refine ⟨?_, ?_, ?_⟩
  · obtain ⟨num, _, hq⟩ := extractQuantity_ok_inv hinv.2.2.2.2.1
    rw [hq]
    exact numVal_nonneg num
  · intro hlim
    have hps := hinv.2.2.2.2.2.1
    rw [hlim] at hps
    simp only [if_pos rfl] at hps
    have hne := hinv.2.2.2.2.2.2 hlim
    rw [hps] at hne
    obtain ⟨p, hp⟩ := Option.ne_none_iff_exists'.mp hne
    obtain ⟨num, _, hnum⟩ := extractPrice_eq_some_inv hp
    exact ⟨p, by rw [hps, hp], by rw [hnum]; exact numVal_nonneg num⟩
  · intro hmar
    have hps := hinv.2.2.2.2.2.1
    rw [hmar] at hps
    simpa using hps

theorem C3_invariants_amended_witness :
    0 ≤ (⟨"sell", "BTC_USDT", 2, "limit", some 3⟩ : OrderInstruction).quantity
    ∧ ((⟨"sell", "BTC_USDT", 2, "limit", some 3⟩ : OrderInstruction).order_type = "limit" →
        ∃ p, (⟨"sell", "BTC_USDT", 2, "limit", some 3⟩ : OrderInstruction).price = some p
          ∧ 0 ≤ p)
    ∧ ((⟨"sell", "BTC_USDT", 2, "limit", some 3⟩ : OrderInstruction).order_type = "market" →
        (⟨"sell", "BTC_USDT", 2, "limit", some 3⟩ : OrderInstruction).price = none) :=
  C3_invariants_amended "sell 2 BTC/USDT limit at 3"
    ⟨"sell", "BTC_USDT", 2, "limit", some 3⟩ (by decide)

/-- C6 (counterexample): scenario B actually yields the pair `"ETHU_SDT"`
(the greedy base group takes four letters), not `"ETH_USDT"` as claimed. -/
theorem C6_scenarioB_counterexample :
    parse "vends 10 ETHUSDT at 1800 limit"
      = .ok ⟨"sell", "ETHU_SDT", 10, "limit", some 1800⟩
    ∧ ("ETHU_SDT" : String) ≠ "ETH_USDT" :=
  ⟨by decide, by decide⟩

/-- C6 (amended): `parse "vends 10 ETHUSDT at 1800 limit"` returns a
structured order with side sell, pair `"ETHU_SDT"` (the greedy leftmost
split of `ETHUSDT` takes four letters for the base and three for the quote),
quantity `10`, order type limit and price `1800`. -/
theorem C6_scenarioB_amended :
    parse "vends 10 ETHUSDT at 1800 limit"
      = .ok ⟨"sell", "ETHU_SDT", 10, "limit", some 1800⟩ := by
  decide

/-- C7: for every structured order (whose order type, as produced by the
parser, is `"market"` or `"limit"`) and account identifier, the payload holds
exactly the wire fields: the account identifier, the pair, a position type
string equal to the order type, the quantity as the units value, and a price
block carrying the order's price if and only if the order type is limit; a
market order's payload never contains a price block. -/
theorem C7_payload_shape (o : OrderInstruction) (account_id : Int)
    (h : o.order_type = "market" ∨ o.order_type = "limit") :
    (o.as_payload account_id).account_id = account_id
    ∧ (o.as_payload account_id).pair = o.pair
    ∧ (o.as_payload account_id).position.type = o.order_type
    ∧ (o.as_payload account_id).position.units_value = o.quantity
    ∧ ((o.as_payload account_id).position.price = some o.price ↔
        o.order_type = "limit")
    ∧ (o.order_type = "market" → (o.as_payload account_id).position.price = none) := by
  have hml : ("market" : String) ≠ "limit" := by decide
  have hlm : ("limit" : String) ≠ "market" := by decide
  rcases h with h | h
  · simp [OrderInstruction.as_payload, h, hml]
  · simp [OrderInstruction.as_payload, h, hlm]

theorem C7_payload_shape_witness :
    ((⟨"buy", "BTC_USDT", 1, "limit", some 2⟩ : OrderInstruction).as_payload 7).account_id = 7
    ∧ ((⟨"buy", "BTC_USDT", 1, "limit", some 2⟩ : OrderInstruction).as_payload 7).pair
        = (⟨"buy", "BTC_USDT", 1, "limit", some 2⟩ : OrderInstruction).pair
    ∧ ((⟨"buy", "BTC_USDT", 1, "limit", some 2⟩ : OrderInstruction).as_payload 7).position.type
        = (⟨"buy", "BTC_USDT", 1, "limit", some 2⟩ : OrderInstruction).order_type
    ∧ ((⟨"buy", "BTC_USDT", 1, "limit", some 2⟩ : OrderInstruction).as_payload 7).position.units_value
        = (⟨"buy", "BTC_USDT", 1, "limit", some 2⟩ : OrderInstruction).quantity
    ∧ (((⟨"buy", "BTC_USDT", 1, "limit", some 2⟩ : OrderInstruction).as_payload 7).position.price
        = some (⟨"buy", "BTC_USDT", 1, "limit", some 2⟩ : OrderInstruction).price ↔
        (⟨"buy", "BTC_USDT", 1, "limit", some 2⟩ : OrderInstruction).order_type = "limit")
    ∧ ((⟨"buy", "BTC_USDT", 1, "limit", some 2⟩ : OrderInstruction).order_type = "market" →
        ((⟨"buy", "BTC_USDT", 1, "limit", some 2⟩ : OrderInstruction).as_payload 7).position.price = none) :=
  C7_payload_shape ⟨"buy", "BTC_USDT", 1, "limit", some 2⟩ 7 (Or.inr rfl)

/-- C8: `parse "buy 1,5 BTC-USDT"` and `parse "buy 1.5 BTC-USDT"` both
succeed and yield the same quantity `1.5`: the comma decimal separator is
normalized to a dot before the numeric literal is converted to a value, so
the two spellings are indistinguishable in the result. -/
theorem C8_locale_tolerant_quantity :
    parse "buy 1,5 BTC-USDT" = .ok ⟨"buy", "BTC_USDT", 1.5, "market", none⟩
    ∧ parse "buy 1.5 BTC-USDT" = .ok ⟨"buy", "BTC_USDT", 1.5, "market", none⟩ := by
  have h1 : digitsVal ['1'] = 1 := by decide
  have h5 : digitsVal ['5'] = 5 := by decide
  have hv : numVal ['1', ',', '5'] = 1.5 := by
    have he : numVal ['1', ',', '5']
        = (digitsVal ['1'] : ℚ) + (digitsVal ['5'] : ℚ) / (10 : ℚ) ^ (1 : Nat) := rfl
    rw [he, h1, h5]
    norm_num
  have hv2 : numVal ['1', '.', '5'] = 1.5 := by
    have he : numVal ['1', '.', '5']
        = (digitsVal ['1'] : ℚ) + (digitsVal ['5'] : ℚ) / (10 : ℚ) ^ (1 : Nat) := rfl
    rw [he, h1, h5]
    norm_num
  constructor
  · have he : parse "buy 1,5 BTC-USDT"
        = .ok ⟨"buy", "BTC_USDT", numVal ['1', ',', '5'], "market", none⟩ := rfl
    rw [he, hv]
  · have he : parse "buy 1.5 BTC-USDT"
        = .ok ⟨"buy", "BTC_USDT", numVal ['1', '.', '5'], "market", none⟩ := rfl
    rw [he, hv2]

/-- C4: every successfully parsed pair has the shape
`[A-Z]{3,5}_[A-Z]{3,5}` — two runs of 3 to 5 uppercase letters joined by an
underscore — and it comes from the leftmost position of the uppercased
stripped message at which the pair pattern matches (the base group
optionally followed by `/` or `-` and the quote group); when no position
matches, `parse` fails with `missingPair`. -/
theorem C4_pair_shape_leftmost (m : String) :
    (∀ o, parse m = .ok o →
      ∃ b q i,
        o.pair = ⟨b ++ '_' :: q⟩
        ∧ 3 ≤ b.length ∧ b.length ≤ 5 ∧ b.all isUpperAZ = true
        ∧ 3 ≤ q.length ∧ q.length ≤ 5 ∧ q.all isUpperAZ = true
        ∧ pairAttempt ((pyUpper (pyStrip m.data)).drop i) = some (b, q)
        ∧ ∀ j, j < i → pairAttempt ((pyUpper (pyStrip m.data)).drop j) = none)
    ∧ (pyStrip m.data ≠ [] →
        (hasToken (pyLower (pyStrip m.data)) BUY_TOKENS
          || hasToken (pyLower (pyStrip m.data)) SELL_TOKENS) = true →
        pairSearch (pyUpper (pyStrip m.data)) = none →
        parse m = .error .missingPair) := by
  constructor
  · intro o h
    have hpair := (parse_ok_inv h).2.2.2.1
    unfold extractPair at hpair
    cases hps : pairSearch (pyUpper (pyStrip m.data)) with
    | none => rw [hps] at hpair; exact absurd hpair (by simp)
    | some g =>
      obtain ⟨b, q⟩ := g
      rw [hps] at hpair
      simp only [Except.ok.injEq] at hpair
      obtain ⟨i, hi, hj⟩ := pairSearch_leftmost hps
      obtain ⟨b1, b2, b3, q1, q2, q3⟩ := pairAttempt_spec hi
      exact ⟨b, q, i, hpair.symm, b1, b2, b3, q1, q2, q3, hi, hj⟩
  · intro hne hbs hp
    obtain ⟨s, hside⟩ := extractSide_isOk hbs
    exact parse_err_pair hne hside hp

theorem C4_pair_shape_leftmost_witness :
    ∃ b q i,
      (⟨"buy", "BTC_USDT", 2, "market", none⟩ : OrderInstruction).pair = ⟨b ++ '_' :: q⟩
      ∧ 3 ≤ b.length ∧ b.length ≤ 5 ∧ b.all isUpperAZ = true
      ∧ 3 ≤ q.length ∧ q.length ≤ 5 ∧ q.all isUpperAZ = true
      ∧ pairAttempt ((pyUpper (pyStrip ("buy 2 BTC/USDT").data)).drop i) = some (b, q)
      ∧ ∀ j, j < i → pairAttempt ((pyUpper (pyStrip ("buy 2 BTC/USDT").data)).drop j) = none :=
  (C4_pair_shape_leftmost "buy 2 BTC/USDT").1
    ⟨"buy", "BTC_USDT", 2, "market", none⟩ (by decide)

/-- C9 (implicit): for every message containing a run of six or more
consecutive ASCII letters, pair extraction on the uppercased stripped message
succeeds, so `parse` never fails with `missingPair` on such messages; the
extracted pair may be carved out of an ordinary word, as in
`parse "buy 5 market"`, which succeeds with pair `"MAR_KET"`. -/
theorem C9_letter_run_never_missing_pair (m : String)
    (h : ∃ a r b, m.data = a ++ r ++ b ∧ 6 ≤ r.length ∧ r.all isLetter = true) :
    (∃ x, pairSearch (pyUpper (pyStrip m.data)) = some x)
    ∧ parse m ≠ .error .missingPair
    ∧ parse "buy 5 market" = .ok ⟨"buy", "MAR_KET", 5, "market", none⟩ := by
  obtain ⟨a, r, b, hm, hlen, hletters⟩ := h
  have hlet : ∀ c ∈ r, isLetter c = true := List.all_eq_true.mp hletters
  have hns : ∀ c ∈ r, isSpace c = false := fun c hc =>
    not_isSpace_of_isLetter (hlet c hc)
  have hrne : r ≠ [] := by
    intro hr
    rw [hr] at hlen
    simp at hlen
  obtain ⟨a', b', hstrip⟩ := pyStrip_infix hm hrne hns
  have hup : pyUpper (pyStrip m.data) = pyUpper a' ++ (pyUpper r ++ pyUpper b') := by
    rw [hstrip]
    simp [pyUpper]
  have hlenR : 6 ≤ (pyUpper r).length := by simpa [pyUpper] using hlen
  have hallR : ∀ c ∈ pyUpper r, isUpperAZ c = true := by
    intro c hc
    obtain ⟨c0, hc0, rfl⟩ := List.mem_map.mp hc
    exact isUpperAZ_upperChar (hlet c0 hc0)
  have hdrop : (pyUpper (pyStrip m.data)).drop (pyUpper a').length
      = pyUpper r ++ pyUpper b' := by
    rw [hup]
    exact List.drop_left _ _
  have htake : ((pyUpper r ++ pyUpper b').take 6).all isUpperAZ = true := by
    rw [List.take_append_of_le_length hlenR]
    exact List.all_eq_true.mpr fun c hc => hallR c (List.mem_of_mem_take hc)
  have hlen6 : 6 ≤ (pyUpper r ++ pyUpper b').length := by
    rw [List.length_append]
    omega
  have hatt : (pairAttempt ((pyUpper (pyStrip m.data)).drop
      (pyUpper a').length)).isSome = true := by
    rw [hdrop]
    exact pairAttempt_isSome_of_six hlen6 htake
  obtain ⟨x, hx⟩ := pairSearch_some_of_attempt _ hatt
  refine ⟨⟨x, hx⟩, ?_, by decide⟩
  intro hcon
  have hnone := parse_missingPair_inv hcon
  rw [hx] at hnone
  exact Option.noConfusion hnone

theorem C9_letter_run_never_missing_pair_witness :
    (∃ x, pairSearch (pyUpper (pyStrip ("buy 5 market").data)) = some x)
    ∧ parse "buy 5 market" ≠ .error .missingPair
    ∧ parse "buy 5 market" = .ok ⟨"buy", "MAR_KET", 5, "market", none⟩ :=
  C9_letter_run_never_missing_pair "buy 5 market"
    ⟨"buy 5 ".toList, "market".toList, [], by decide, by decide, by decide⟩

/-- C10: the price pattern has no word boundary before `at`, so in
`"buy 1 BTC/USDT limit float 42"` — a limit-order message whose lower-cased
text contains no standalone `" at "` token and no `à` — the letters `at`
inside the word `float`, followed by whitespace and a numeric literal, are
taken as the price: the parse succeeds with price `42` instead of failing
with `missingPrice`. -/
theorem C10_price_inside_word :
    parse "buy 1 BTC/USDT limit float 42"
      = .ok ⟨"buy", "BTC_USDT", 1, "limit", some 42⟩
    ∧ listSub (" at ".toList) (pyLower (pyStrip ("buy 1 BTC/USDT limit float 42").data)) = false
    ∧ listSub ['à'] (pyLower (pyStrip ("buy 1 BTC/USDT limit float 42").data)) = false :=
  ⟨by decide, by decide, by decide⟩

end Trailingout
